import Mathlib

/-!
Verification of the result-set-to-CSV projection engine of `sqlq`.

The repository contains two variants of the program: `main.go` (the current
one, with multi-result-set support in `execQuery` and the streaming logic in
`writeResultSet`) and an older unnamed variant (single result set, with the
row count stored in the `queryCSV.rowCount` field and reported by `main`).
Both are embedded below; definitions named `...Old` come from the older
variant, all others from `main.go`.

Machine integers (`int64` lengths, byte values) are modelled as `Int`/`Nat`;
byte slices as `List Nat`; the dynamically typed cell values handed back by
`rows.Scan` into `*any` as `Option RawValue` (`none` is SQL NULL).  The CSV
writer (`csvWriter` interface) is modelled as an append-only record sink
whose writes can be made to fail at chosen write indices.
-/

/-- A decoded dynamically typed cell value, as delivered by the database
driver through `rows.Scan` into `*any`.  Covers the driver value shapes the
program's type switch distinguishes: byte slices, booleans, integers and
strings.  SQL NULL is `Option.none` at the use site.  (Driver values of
other dynamic types, e.g. `time.Time` or `float64`, fall into the program's
`fmt.Sprintf` default branch and are outside this development.) -/
inductive RawValue where
  | bytes (bs : List Nat)
  | boolean (b : Bool)
  | int (n : Int)
  | str (s : String)
deriving DecidableEq

/-- Column metadata, embedding `*sql.ColumnType` as the program consumes it:
`Name()`, `DatabaseTypeName()`, `Nullable()`, `Length()` and `DecimalSize()`,
with each `(value, ok)` pair modelled as an `Option`. -/
structure ColumnType where
  name : String
  databaseTypeName : String
  nullable : Option Bool
  length : Option Int
  decimalSize : Option (Int × Int)
deriving DecidableEq

/-- State of the record sink modelling the `csvWriter` interface: a count of
`Write` calls made so far and the records successfully written, in order.
The sink is append-only: nothing ever removes a written record. -/
structure SinkState where
  count : Nat
  written : List (List String)
deriving DecidableEq

/-- One `Write(record)` call on the sink.  `fail` says whether the n-th write
call returns an error; a failing write appends nothing. -/
def sinkWrite (fail : Nat → Option String) (st : SinkState) (rec : List String) :
    SinkState × Option String :=
  match fail st.count with
  | some e => (⟨st.count + 1, st.written⟩, some e)
  | none => (⟨st.count + 1, st.written ++ [rec]⟩, none)

/-- A sink whose writes always succeed. -/
def noFail : Nat → Option String := fun _ => none

/-- Lower-case hexadecimal digit, as produced by Go's `encoding/hex`. -/
def hexDigit (n : Nat) : Char :=
  if n < 10 then Char.ofNat (48 + n) else Char.ofNat (87 + n)

/-- Two lower-case hex digits for one byte. -/
def hexByte (b : Nat) : String :=
  String.mk [hexDigit (b / 16 % 16), hexDigit (b % 16)]

/-- Models Go `hex.EncodeToString`: each byte as two lower-case hex digits. -/
def hexEncode (bs : List Nat) : String :=
  String.join (bs.map hexByte)

/-- Models the Go conversion `string(b)` for a byte slice `b`.  Bytes are
mapped to code points, which coincides with Go's UTF-8 reading for the ASCII
content (decimal digit strings) the program's `MONEY`/`DECIMAL` cells carry. -/
def stringOfBytes (bs : List Nat) : String :=
  String.mk (bs.map Char.ofNat)

/-- Models `github.com/google/uuid`: `UUID.String()` renders the 16 stored
bytes, in storage order, as the hyphenated 8-4-4-4-12 lower-case hex form.
`uuid.FromBytes` (modelled inline in `formatCell`) copies its input verbatim
into storage and fails exactly when the input is not 16 bytes long. -/
def uuidString (u : List Nat) : String :=
  hexEncode (u.take 4) ++ "-" ++ hexEncode ((u.drop 4).take 2) ++ "-" ++
    hexEncode ((u.drop 6).take 2) ++ "-" ++ hexEncode ((u.drop 8).take 2) ++ "-" ++
    hexEncode (u.drop 10)

/-- Failure of formatting one cell: a `uuid.FromBytes` error, or a Go type
assertion panic (`value.([]byte)` / `value.(bool)` on a value of the wrong
dynamic type). -/
inductive CellFail where
  | malformedUuid
  | typeAssertPanic
deriving DecidableEq

/-- The per-cell formatting step of `writeResultSet` in `main.go` (lines
199-231): the `value == nil` check followed by the type switch on
`DatabaseTypeName()`.  `prev` is the content `formatted[i]` already holds
from the previous row, because the `formatted` slice is allocated once per
result set; the Go `case "DECIMAL":` arm has an empty body and no
fallthrough, so it leaves `formatted[i]` at `prev`. -/
def formatCell (databaseTypeName : String) (prev : String) (nullString : String)
    (value : Option RawValue) : Except CellFail String :=
  match value with
  | none => .ok nullString
  | some v =>
    if databaseTypeName = "UNIQUEIDENTIFIER" then
      match v with
      | .bytes bs => if bs.length = 16 then .ok (uuidString bs) else .error .malformedUuid
      | _ => .error .typeAssertPanic
    else if databaseTypeName = "DECIMAL" then
      .ok prev
    else if databaseTypeName = "MONEY" then
      match v with
      | .bytes bs => .ok (stringOfBytes bs)
      | _ => .error .typeAssertPanic
    else if databaseTypeName = "BIT" then
      match v with
      | .boolean b => .ok (if b then "1" else "0")
      | _ => .error .typeAssertPanic
    else
      match v with
      | .bytes bs => .ok ("0x" ++ hexEncode bs)
      | .boolean b => .ok (if b then "true" else "false")
      | .int n => .ok (toString n)
      | .str s => .ok s

/-- The inner `for i := range rowValues` loop of `writeResultSet`: format the
cells of one row left to right against the buffer contents left over from the
previous row, aborting at the first failing cell. -/
def formatRow (nullString : String) :
    List ColumnType → List (Option RawValue) → List String →
    Except CellFail (List String)
  | ct :: cts, v :: vs, p :: ps =>
    match formatCell ct.databaseTypeName p nullString v with
    | .error e => .error e
    | .ok f =>
      match formatRow nullString cts vs ps with
      | .error e => .error e
      | .ok fs => .ok (f :: fs)
  | _, _, _ => .ok []

/-- Models `strings.ReplaceAll(s, "]", "]]")`: every `]` is doubled. -/
def bracketEscape (s : String) : String :=
  String.mk (s.data.flatMap fun c => if c = ']' then [']', ']'] else [c])

/-- The label built for one column by `writeHeader` (`main.go` lines 247-283),
following the builder steps of the source: bracketed escaped name, a space,
the database type name, the `Length()`-or-`DecimalSize()` suffix with the two
sentinel lengths rendered as `max`, and the nullability suffix. -/
def headerLabel (ct : ColumnType) : String :=
  let base := "[" ++ bracketEscape ct.name ++ "]" ++ " " ++ ct.databaseTypeName
  let withSize :=
    match ct.length with
    | some len =>
      base ++ "(" ++ (if len = 2147483645 ∨ len = 1073741822 then "max"
        else toString len) ++ ")"
    | none =>
      match ct.decimalSize with
      | some ps => base ++ "(" ++ toString ps.1 ++ "," ++ toString ps.2 ++ ")"
      | none => base
  match ct.nullable with
  | some b => withSize ++ " " ++ (if b then "" else "NOT ") ++ "NULL"
  | none => withSize

/-- `writeHeader`: one label per column, in order. -/
def writeHeader (colTypes : List ColumnType) : List String :=
  colTypes.map headerLabel

/-- Outcome of `rows.Next()` plus `rows.Scan(...)` for one row: either the
decoded cells, or a scan error. -/
inductive RowOutcome where
  | ok (cells : List (Option RawValue))
  | scanFail (msg : String)
deriving DecidableEq

/-- The structured errors `execQuery`/`writeResultSet` wrap with
`fmt.Errorf`; row-level errors carry the 1-based row index interpolated into
the message. -/
inductive RunErr where
  | headerWrite (msg : String)
  | scanRow (rowIndex : Nat) (msg : String)
  | uuidRow (rowIndex : Nat)
  | writeRow (rowIndex : Nat) (msg : String)
  | assertPanic
  | columnTypes (msg : String)
  | closeRows (msg : String)
  | rowsErr (msg : String)
deriving DecidableEq

/-- The `for rowCount := 0; rows.Next(); rowCount++` loop of
`writeResultSet` (`main.go` lines 189-238): scan, format against the reused
`formatted` buffer, write the record, threading the sink state and the
0-based completed-row count. -/
def writeResultSetLoop (fail : Nat → Option String) (nullString : String)
    (colTypes : List ColumnType) :
    List RowOutcome → SinkState → List String → Nat → SinkState × Option RunErr
  | [], st, _, _ => (st, none)
  | .scanFail m :: _, st, _, rowCount => (st, some (.scanRow (rowCount + 1) m))
  | .ok cells :: rest, st, formatted, rowCount =>
    match formatRow nullString colTypes cells formatted with
    | .error .malformedUuid => (st, some (.uuidRow (rowCount + 1)))
    | .error .typeAssertPanic => (st, some .assertPanic)
    | .ok f =>
      match sinkWrite fail st f with
      | (st2, some m) => (st2, some (.writeRow (rowCount + 1) m))
      | (st2, none) => writeResultSetLoop fail nullString colTypes rest st2 f (rowCount + 1)

/-- `writeResultSet` (`main.go` lines 180-241): write the header record, then
stream the rows through the loop, starting from a `formatted` buffer of empty
strings (`make([]string, len(colTypes))`). -/
def writeResultSet (fail : Nat → Option String) (nullString : String)
    (colTypes : List ColumnType) (rows : List RowOutcome) (st : SinkState) :
    SinkState × Option RunErr :=
  match sinkWrite fail st (writeHeader colTypes) with
  | (st1, some m) => (st1, some (.headerWrite m))
  | (st1, none) =>
    writeResultSetLoop fail nullString colTypes rows st1
      (List.replicate colTypes.length "") 0

/-- C7: for every column type, every previous buffer content and every
configured null literal (the empty string included), formatting a null cell
returns exactly the null literal, with no escaping applied. -/
theorem null_cells_format_to_null_literal
    (databaseTypeName prev nullString : String) :
    formatCell databaseTypeName prev nullString none = .ok nullString := rfl

/-- C1 counterexample: a `DECIMAL` column whose non-null cell arrives as the
ASCII digit bytes `"123"` is emitted as the empty string (the stale initial
buffer content), not as the raw text `"123"` that an otherwise identical
`MONEY` column produces, so `DECIMAL` formatting is not identical to `MONEY`
formatting. -/
theorem decimal_not_money_counterexample :
    (writeResultSet noFail "NULL"
        [⟨"d", "DECIMAL", none, none, some (18, 2)⟩]
        [.ok [some (.bytes [49, 50, 51])]] ⟨0, []⟩).1.written =
      [["[d] DECIMAL(18,2)"], [""]] ∧
    (writeResultSet noFail "NULL"
        [⟨"d", "MONEY", none, none, some (18, 2)⟩]
        [.ok [some (.bytes [49, 50, 51])]] ⟨0, []⟩).1.written =
      [["[d] MONEY(18,2)"], ["123"]] ∧
    ("" : String) ≠ "123" := by
  refine ⟨rfl, rfl, ?_⟩
  decide

/-- C1 amended: the `DECIMAL` arm of the type switch has an empty body (no
fallthrough in Go), so for every non-null value of any shape it leaves the
reused output buffer at its previous content, while the `MONEY` arm decodes
the byte sequence as raw text. -/
theorem decimal_case_is_inert (prev nullString : String) (v : RawValue)
    (bs : List Nat) :
    formatCell "DECIMAL" prev nullString (some v) = .ok prev ∧
    formatCell "MONEY" prev nullString (some (.bytes bs)) = .ok (stringOfBytes bs) := by
  constructor
  · rfl
  · rfl

/-- The size suffix as the spec words it: the length in parentheses, with the
two sentinel lengths rendered as `(max)`; else precision and scale; else
empty. -/
def sizeSuffix (ct : ColumnType) : String :=
  match ct.length with
  | some len =>
    "(" ++ (if len = 2147483645 ∨ len = 1073741822 then "max" else toString len) ++ ")"
  | none =>
    match ct.decimalSize with
    | some ps => "(" ++ toString ps.1 ++ "," ++ toString ps.2 ++ ")"
    | none => ""

/-- The nullability suffix as the spec words it. -/
def nullabilitySuffix (ct : ColumnType) : String :=
  match ct.nullable with
  | some true => " NULL"
  | some false => " NOT NULL"
  | none => ""

/-- C6: every rendered header label equals the bracketed column name with
each closing bracket doubled, a space, the database type name, the size
suffix (length, with the sentinels 2147483645 and 1073741822 as `max`, else
precision and scale, else empty) and the nullability suffix. -/
theorem header_label_spec (ct : ColumnType) :
    headerLabel ct =
      "[" ++ bracketEscape ct.name ++ "] " ++ ct.databaseTypeName ++
        sizeSuffix ct ++ nullabilitySuffix ct := by
  rcases ct with ⟨name, dbt, nb, len, ds⟩
  have e1 : ("] " : String) = "]" ++ " " := rfl
  have e2 : (" NULL" : String) = " " ++ "NULL" := rfl
  have e3 : (" NOT NULL" : String) = " " ++ ("NOT " ++ "NULL") := rfl
  rcases len with _ | l <;> rcases ds with _ | ps <;> rcases nb with _ | b
  all_goals try cases b
  all_goals
    simp [headerLabel, sizeSuffix, nullabilitySuffix, e1, e2, e3,
      String.append_assoc]

/-- The rows the streaming loop would emit when every scan, format and write
succeeds: the per-row outputs of `formatRow`, each row formatted against the
buffer left by the row before it (`formatted` is reused across rows). -/
def formatSucc (nullString : String) (colTypes : List ColumnType) :
    List String → List RowOutcome → Option (List (List String))
  | _, [] => some []
  | formatted, .ok cells :: rest =>
    match formatRow nullString colTypes cells formatted with
    | .error _ => none
    | .ok f =>
      match formatSucc nullString colTypes f rest with
      | none => none
      | some outs => some (f :: outs)
  | _, .scanFail _ :: _ => none

theorem writeResultSetLoop_noFail (ns : String) (cols : List ColumnType) :
    ∀ (rows : List RowOutcome) (fmt : List String) (outs : List (List String))
      (c : Nat) (w : List (List String)) (rc : Nat),
      formatSucc ns cols fmt rows = some outs →
      writeResultSetLoop noFail ns cols rows ⟨c, w⟩ fmt rc =
        (⟨c + outs.length, w ++ outs⟩, none) := by
  intro rows
  induction rows with
  | nil =>
    intro fmt outs c w rc h
    simp only [formatSucc, Option.some.injEq] at h
    subst h
    simp [writeResultSetLoop]
  | cons r rest ih =>
    intro fmt outs c w rc h
    cases r with
    | scanFail m => simp [formatSucc] at h
    | ok cells =>
      cases hfr : formatRow ns cols cells fmt with
      | error e => simp [formatSucc, hfr] at h
      | ok f =>
        simp only [formatSucc, hfr] at h
        cases hfs : formatSucc ns cols f rest with
        | none => simp [hfs] at h
        | some outs' =>
          simp only [hfs, Option.some.injEq] at h
          subst h
          have hsw : sinkWrite noFail ⟨c, w⟩ f = (⟨c + 1, w ++ [f]⟩, none) := rfl
          simp only [writeResultSetLoop, hfr, hsw]
          rw [ih f outs' (c + 1) (w ++ [f]) (rc + 1) hfs]
          have hc : c + 1 + outs'.length = c + (outs'.length + 1) := by omega
          rw [hc]
          simp [List.append_assoc]

theorem writeResultSet_noFail (ns : String) (cols : List ColumnType)
    (rows : List RowOutcome) (outs : List (List String)) (st : SinkState)
    (h : formatSucc ns cols (List.replicate cols.length "") rows = some outs) :
    writeResultSet noFail ns cols rows st =
      (⟨st.count + 1 + outs.length, st.written ++ writeHeader cols :: outs⟩, none) := by
  obtain ⟨c, w⟩ := st
  have hsw : sinkWrite noFail ⟨c, w⟩ (writeHeader cols) =
      (⟨c + 1, w ++ [writeHeader cols]⟩, none) := rfl
  simp only [writeResultSet, hsw]
  rw [writeResultSetLoop_noFail ns cols rows _ outs (c + 1) (w ++ [writeHeader cols]) 0 h]
  simp [List.append_assoc]

theorem writeResultSetLoop_noFail_append (ns : String) (cols : List ColumnType) :
    ∀ (good more : List RowOutcome) (fmt : List String) (outs : List (List String))
      (c : Nat) (w : List (List String)) (rc : Nat),
      formatSucc ns cols fmt good = some outs →
      writeResultSetLoop noFail ns cols (good ++ more) ⟨c, w⟩ fmt rc =
        writeResultSetLoop noFail ns cols more ⟨c + outs.length, w ++ outs⟩
          (outs.getLastD fmt) (rc + outs.length) := by
  intro good
  induction good with
  | nil =>
    intro more fmt outs c w rc h
    simp only [formatSucc, Option.some.injEq] at h
    subst h
    simp [List.getLastD]
  | cons r rest ih =>
    intro more fmt outs c w rc h
    cases r with
    | scanFail m => simp [formatSucc] at h
    | ok cells =>
      cases hfr : formatRow ns cols cells fmt with
      | error e => simp [formatSucc, hfr] at h
      | ok f =>
        simp only [formatSucc, hfr] at h
        cases hfs : formatSucc ns cols f rest with
        | none => simp [hfs] at h
        | some outs' =>
          simp only [hfs, Option.some.injEq] at h
          subst h
          have hsw : sinkWrite noFail ⟨c, w⟩ f = (⟨c + 1, w ++ [f]⟩, none) := rfl
          simp only [List.cons_append, writeResultSetLoop, hfr, hsw, List.append_eq]
          rw [ih more f outs' (c + 1) (w ++ [f]) (rc + 1) hfs]
          have hc : c + 1 + outs'.length = c + (f :: outs').length := by
            simp only [List.length_cons]; omega
          have hrc : rc + 1 + outs'.length = rc + (f :: outs').length := by
            simp only [List.length_cons]; omega
          have hw : (w ++ [f]) ++ outs' = w ++ f :: outs' := by
            simp [List.append_assoc]
          rw [hc, hrc, hw, List.getLastD_cons]

/-- The ways one row can make the streaming loop abort through a decode or
format failure: a `rows.Scan` error, or a `uuid.FromBytes` failure while
formatting (given the buffer contents the loop has at that row). -/
inductive RowFailKind where
  | scan (msg : String)
  | uuid
deriving DecidableEq

/-- Classifies a row outcome as a decode/format failure, mirroring the two
early `return` sites inside the row loop of `writeResultSet`. -/
def rowFailure (nullString : String) (colTypes : List ColumnType)
    (formatted : List String) : RowOutcome → Option RowFailKind
  | .scanFail m => some (.scan m)
  | .ok cells =>
    match formatRow nullString colTypes cells formatted with
    | .error .malformedUuid => some .uuid
    | _ => none

/-- The error value the loop produces for a failing row at a given 1-based
row index. -/
def errOfKind : RowFailKind → Nat → RunErr
  | .scan m, idx => .scanRow idx m
  | .uuid, idx => .uuidRow idx

/-- C5: when a decode or format failure hits the first failing row, the
streamer aborts with an error tagged with one plus the number of rows already
emitted, the records already written (the caller's records, the header and
the successfully formatted rows) all remain in the sink, and nothing after
the failing row is consumed (the result does not depend on `rest`). -/
theorem row_error_tagging (ns : String) (cols : List ColumnType)
    (good rest : List RowOutcome) (bad : RowOutcome) (st : SinkState)
    (outs : List (List String)) (k : RowFailKind)
    (hgood : formatSucc ns cols (List.replicate cols.length "") good = some outs)
    (hbad : rowFailure ns cols (outs.getLastD (List.replicate cols.length "")) bad
      = some k) :
    writeResultSet noFail ns cols (good ++ bad :: rest) st =
      (⟨st.count + 1 + outs.length, st.written ++ writeHeader cols :: outs⟩,
        some (errOfKind k (outs.length + 1))) := by
  obtain ⟨c, w⟩ := st
  have hsw : sinkWrite noFail ⟨c, w⟩ (writeHeader cols) =
      (⟨c + 1, w ++ [writeHeader cols]⟩, none) := rfl
  simp only [writeResultSet, hsw]
  rw [writeResultSetLoop_noFail_append ns cols good (bad :: rest) _ outs (c + 1)
    (w ++ [writeHeader cols]) 0 hgood]
  cases bad with
  | scanFail m =>
    simp only [rowFailure, Option.some.injEq] at hbad
    subst hbad
    simp only [writeResultSetLoop, errOfKind]
    simp [List.append_assoc]
  | ok cells =>
    simp only [rowFailure] at hbad
    cases hfr : formatRow ns cols cells (outs.getLastD (List.replicate cols.length "")) with
    | ok f => rw [hfr] at hbad; simp at hbad
    | error e =>
      rw [hfr] at hbad
      cases e with
      | typeAssertPanic => simp at hbad
      | malformedUuid =>
        simp only [Option.some.injEq] at hbad
        subst hbad
        simp only [writeResultSetLoop, hfr, errOfKind]
        simp [List.append_assoc]

theorem row_error_tagging_witness :
    formatSucc "NULL" [⟨"u", "UNIQUEIDENTIFIER", none, none, none⟩]
        (List.replicate
          ([⟨"u", "UNIQUEIDENTIFIER", none, none, none⟩] : List ColumnType).length "")
        [.ok [some (.bytes (List.replicate 16 0))]] =
      some [["00000000-0000-0000-0000-000000000000"]] ∧
    rowFailure "NULL" [⟨"u", "UNIQUEIDENTIFIER", none, none, none⟩]
        ([["00000000-0000-0000-0000-000000000000"]].getLastD
          (List.replicate
            ([⟨"u", "UNIQUEIDENTIFIER", none, none, none⟩] : List ColumnType).length ""))
        (.ok [some (.bytes [1, 2, 3])]) = some .uuid ∧
    writeResultSet noFail "NULL" [⟨"u", "UNIQUEIDENTIFIER", none, none, none⟩]
        ([.ok [some (.bytes (List.replicate 16 0))]] ++
          .ok [some (.bytes [1, 2, 3])] :: [.scanFail "boom"]) ⟨0, []⟩ =
      (⟨2, [["[u] UNIQUEIDENTIFIER"], ["00000000-0000-0000-0000-000000000000"]]⟩,
        some (.uuidRow 2)) := by
  refine ⟨rfl, rfl, ?_⟩
  exact row_error_tagging "NULL" [⟨"u", "UNIQUEIDENTIFIER", none, none, none⟩]
    [.ok [some (.bytes (List.replicate 16 0))]] [.scanFail "boom"]
    (.ok [some (.bytes [1, 2, 3])]) ⟨0, []⟩
    [["00000000-0000-0000-0000-000000000000"]] .uuid rfl rfl

/-- The field at row `j`, column `i` of a list of emitted records. -/
def cellAt (outs : List (List String)) (j i : Nat) : Option String :=
  match outs[j]? with
  | some r => r[i]?
  | none => none

theorem formatRow_decimal_stable (ns : String) :
    ∀ (cols : List ColumnType) (cells : List (Option RawValue))
      (prev out : List String) (i : Nat) (ct : ColumnType) (v : RawValue),
      cols[i]? = some ct → ct.databaseTypeName = "DECIMAL" →
      cells[i]? = some (some v) →
      formatRow ns cols cells prev = .ok out →
      out[i]? = prev[i]? := by
  intro cols
  induction cols with
  | nil => intro cells prev out i ct v hct; simp at hct
  | cons ct0 cts ih =>
    intro cells prev out i ct v hct hdec hcell hout
    cases cells with
    | nil => simp at hcell
    | cons v0 vs =>
      cases prev with
      | nil =>
        simp only [formatRow] at hout
        cases hout
        rfl
      | cons p ps =>
        cases i with
        | zero =>
          simp only [List.getElem?_cons_zero, Option.some.injEq] at hct hcell
          subst hct
          subst hcell
          have hfc : formatCell ct0.databaseTypeName p ns (some v) = .ok p := by
            rw [hdec]; rfl
          simp only [formatRow, hfc] at hout
          cases hrest : formatRow ns cts vs ps with
          | error e => simp [hrest] at hout
          | ok fs =>
            simp only [hrest, Except.ok.injEq] at hout
            subst hout
            simp [List.getElem?_cons_zero]
        | succ i' =>
          simp only [List.getElem?_cons_succ] at hct hcell
          cases hfc : formatCell ct0.databaseTypeName p ns v0 with
          | error e => simp [formatRow, hfc] at hout
          | ok f =>
            simp only [formatRow, hfc] at hout
            cases hrest : formatRow ns cts vs ps with
            | error e => simp [hrest] at hout
            | ok fs =>
              simp only [hrest, Except.ok.injEq] at hout
              subst hout
              simp only [List.getElem?_cons_succ]
              exact ih vs ps fs i' ct v hct hdec hcell hrest

theorem formatSucc_decimal_chain (ns : String) (cols : List ColumnType)
    (i : Nat) (ct : ColumnType) (hct : cols[i]? = some ct)
    (hdec : ct.databaseTypeName = "DECIMAL") :
    ∀ (rows : List RowOutcome) (prev : List String) (outs : List (List String))
      (j : Nat) (cells : List (Option RawValue)) (v : RawValue),
      formatSucc ns cols prev rows = some outs →
      rows[j]? = some (.ok cells) → cells[i]? = some (some v) →
      cellAt outs j i = if j = 0 then prev[i]? else cellAt outs (j - 1) i := by
  intro rows
  induction rows with
  | nil => intro prev outs j cells v hrun hrow; simp at hrow
  | cons r rest ih =>
    intro prev outs j cells v hrun hrow hcell
    cases r with
    | scanFail m => simp [formatSucc] at hrun
    | ok c0 =>
      cases hfr : formatRow ns cols c0 prev with
      | error e => simp [formatSucc, hfr] at hrun
      | ok f =>
        simp only [formatSucc, hfr] at hrun
        cases hfs : formatSucc ns cols f rest with
        | none => simp [hfs] at hrun
        | some outs' =>
          simp only [hfs, Option.some.injEq] at hrun
          subst hrun
          cases j with
          | zero =>
            simp only [List.getElem?_cons_zero, Option.some.injEq,
              RowOutcome.ok.injEq] at hrow
            subst hrow
            rw [if_pos rfl]
            simp only [cellAt, List.getElem?_cons_zero]
            exact formatRow_decimal_stable ns cols c0 prev f i ct v hct hdec hcell hfr
          | succ j' =>
            simp only [List.getElem?_cons_succ] at hrow
            have hih := ih f outs' j' cells v hfs hrow hcell
            have hl : cellAt (f :: outs') (j' + 1) i = cellAt outs' j' i := by
              simp [cellAt, List.getElem?_cons_succ]
            rw [hl, hih]
            cases j' with
            | zero =>
              rw [if_pos rfl, if_neg (Nat.succ_ne_zero 0)]
              simp [cellAt, List.getElem?_cons_zero]
            | succ j'' =>
              rw [if_neg (Nat.succ_ne_zero j''), if_neg (Nat.succ_ne_zero (j'' + 1))]
              simp only [Nat.succ_sub_one]
              simp [cellAt, List.getElem?_cons_succ]

/-- C9: in a streamed result set, a non-null cell of a `DECIMAL` column is
emitted as the formatted value the same column position had in the previous
row — the empty string for the first row — because the per-result-set output
buffer is reused and the `DECIMAL` arm writes nothing into it. -/
theorem decimal_cell_repeats_previous_row (ns : String) (cols : List ColumnType)
    (rows : List RowOutcome) (outs : List (List String)) (st : SinkState)
    (i j : Nat) (ct : ColumnType) (cells : List (Option RawValue)) (v : RawValue)
    (hct : cols[i]? = some ct) (hdec : ct.databaseTypeName = "DECIMAL")
    (hrun : formatSucc ns cols (List.replicate cols.length "") rows = some outs)
    (hrow : rows[j]? = some (.ok cells))
    (hcell : cells[i]? = some (some v)) :
    (writeResultSet noFail ns cols rows st).1.written =
      st.written ++ writeHeader cols :: outs ∧
    cellAt outs j i = (if j = 0 then some "" else cellAt outs (j - 1) i) := by
  constructor
  · rw [writeResultSet_noFail ns cols rows outs st hrun]
  · have hchain := formatSucc_decimal_chain ns cols i ct hct hdec rows
      (List.replicate cols.length "") outs j cells v hrun hrow hcell
    obtain ⟨hi, -⟩ := List.getElem?_eq_some_iff.mp hct
    rw [List.getElem?_replicate_of_lt hi] at hchain
    exact hchain

theorem decimal_cell_repeats_previous_row_witness :
    (([⟨"d", "DECIMAL", none, none, none⟩] : List ColumnType)[0]? =
      some ⟨"d", "DECIMAL", none, none, none⟩) ∧
    (⟨"d", "DECIMAL", none, none, none⟩ : ColumnType).databaseTypeName = "DECIMAL" ∧
    formatSucc "NULL" [⟨"d", "DECIMAL", none, none, none⟩]
        (List.replicate ([⟨"d", "DECIMAL", none, none, none⟩] : List ColumnType).length "")
        [.ok [none], .ok [some (.bytes [50])]] = some [["NULL"], ["NULL"]] ∧
    (([.ok [none], .ok [some (.bytes [50])]] : List RowOutcome)[1]? =
      some (.ok [some (.bytes [50])])) ∧
    (([some (.bytes [50])] : List (Option RawValue))[0]? = some (some (.bytes [50]))) ∧
    ((writeResultSet noFail "NULL" [⟨"d", "DECIMAL", none, none, none⟩]
        [.ok [none], .ok [some (.bytes [50])]] ⟨0, []⟩).1.written =
      ([] : List (List String)) ++ writeHeader [⟨"d", "DECIMAL", none, none, none⟩] ::
        [["NULL"], ["NULL"]] ∧
      cellAt [["NULL"], ["NULL"]] 1 0 =
        (if (1 : Nat) = 0 then some "" else cellAt [["NULL"], ["NULL"]] (1 - 1) 0)) := by
  refine ⟨rfl, rfl, rfl, rfl, rfl, ?_⟩
  exact decimal_cell_repeats_previous_row "NULL" [⟨"d", "DECIMAL", none, none, none⟩]
    [.ok [none], .ok [some (.bytes [50])]] [["NULL"], ["NULL"]] ⟨0, []⟩
    0 1 ⟨"d", "DECIMAL", none, none, none⟩ [some (.bytes [50])] (.bytes [50])
    rfl rfl rfl rfl rfl

/-- One result set as the driver presents it to `execQuery`: the outcome of
`rows.ColumnTypes()` and the row outcomes delivered by `rows.Next/Scan`. -/
structure ResultSet where
  colTypes : Except String (List ColumnType)
  rows : List RowOutcome

/-- The `nextResultSet:` goto loop of `execQuery` (`main.go` lines 150-167)
over the sequence of result sets the driver discovers: write one empty
separator record (its write error is discarded, as in `q.cw.Write(nil)`),
fetch the column types, stream the result set when it has at least one
column, and continue with the next result set. -/
def runResultSets (fail : Nat → Option String) (nullString : String) :
    List ResultSet → SinkState → SinkState × Option RunErr
  | [], st => (st, none)
  | rs :: rest, st =>
    let st1 := (sinkWrite fail st []).1
    match rs.colTypes with
    | .error m => (st1, some (.columnTypes m))
    | .ok cols =>
      if cols.length > 0 then
        match writeResultSet fail nullString cols rs.rows st1 with
        | (st2, some e) => (st2, some e)
        | (st2, none) => runResultSets fail nullString rest st2
      else runResultSets fail nullString rest st1

/-- The full cursor handed back by a successful `QueryContext`: the current
result set (always present in `database/sql` after a successful query), the
later ones discovered by `NextResultSet`, and the outcomes of the final
`rows.Close()` and `rows.Err()` calls. -/
structure Cursor where
  first : ResultSet
  rest : List ResultSet
  closeErr : Option String
  errErr : Option String

/-- `execQuery` (`main.go` lines 131-178) after a successful query
submission: the result-set loop followed by the `rows.Close()` and
`rows.Err()` checks. -/
def execQuery (fail : Nat → Option String) (nullString : String) (cur : Cursor)
    (st : SinkState) : SinkState × Option RunErr :=
  match runResultSets fail nullString (cur.first :: cur.rest) st with
  | (st1, some e) => (st1, some e)
  | (st1, none) =>
    match cur.closeErr with
    | some m => (st1, some (.closeRows m))
    | none =>
      match cur.errErr with
      | some m => (st1, some (.rowsErr m))
      | none => (st1, none)

/-- The block of records the spec says one result set contributes to the
stream: exactly one empty separator record, then — only when the result set
has at least one column — the header record and the formatted data rows.
`none` when the result set cannot be processed without error. -/
def blockOf (nullString : String) (rs : ResultSet) : Option (List (List String)) :=
  match rs.colTypes with
  | .error _ => none
  | .ok cols =>
    if cols.length > 0 then
      match formatSucc nullString cols (List.replicate cols.length "") rs.rows with
      | none => none
      | some outs => some ([] :: writeHeader cols :: outs)
    else some [[]]

/-- The spec-side description of the whole stream: the blocks of all result
sets, in discovery order.  `none` when any result set fails. -/
def blocksOf (nullString : String) : List ResultSet →
    Option (List (List (List String)))
  | [] => some []
  | rs :: rest =>
    match blockOf nullString rs with
    | none => none
    | some b =>
      match blocksOf nullString rest with
      | none => none
      | some bs => some (b :: bs)

/-- C3: for a query response with any number of result sets, the executor
emits, in discovery order, one empty separator record before each result set
(hence before the first and exactly one between consecutive ones); a
zero-column result set contributes only its separator, and every result set
with at least one column is streamed as header plus data rows after its
separator. -/
theorem separator_framing (ns : String) :
    ∀ (sets : List ResultSet) (blocks : List (List (List String))) (st : SinkState),
      blocksOf ns sets = some blocks →
      runResultSets noFail ns sets st =
        (⟨st.count + blocks.flatten.length, st.written ++ blocks.flatten⟩, none) := by
  intro sets
  induction sets with
  | nil =>
    intro blocks st h
    simp only [blocksOf, Option.some.injEq] at h
    subst h
    simp [runResultSets]
  | cons rs rest ih =>
    intro blocks st h
    obtain ⟨c, w⟩ := st
    cases hb : blockOf ns rs with
    | none => simp [blocksOf, hb] at h
    | some b =>
      cases hbs : blocksOf ns rest with
      | none => simp [blocksOf, hb, hbs] at h
      | some bs =>
        simp only [blocksOf, hb, hbs, Option.some.injEq] at h
        subst h
        have hsep : (sinkWrite noFail ⟨c, w⟩ []).1 = ⟨c + 1, w ++ [[]]⟩ := rfl
        cases hcolt : rs.colTypes with
        | error m => simp [blockOf, hcolt] at hb
        | ok cols =>
          by_cases h0 : cols.length > 0
          · cases houts : formatSucc ns cols (List.replicate cols.length "") rs.rows with
            | none => simp [blockOf, hcolt, if_pos h0, houts] at hb
            | some outs =>
              simp only [blockOf, hcolt, if_pos h0, houts, Option.some.injEq] at hb
              subst hb
              have hwrs := writeResultSet_noFail ns cols rs.rows outs
                ⟨c + 1, w ++ [[]]⟩ houts
              simp only [runResultSets, hsep, hcolt, if_pos h0, hwrs]
              rw [ih bs _ hbs]
              simp only [List.flatten_cons, List.length_append, List.length_cons,
                List.append_assoc, List.cons_append, List.nil_append,
                Prod.mk.injEq, SinkState.mk.injEq]
              simp only [and_true]
              omega
          · simp only [blockOf, hcolt, if_neg h0, Option.some.injEq] at hb
            subst hb
            simp only [runResultSets, hsep, hcolt, if_neg h0]
            rw [ih bs _ hbs]
            simp only [List.flatten_cons, List.length_append, List.length_cons,
              List.append_assoc, List.cons_append, List.nil_append,
              Prod.mk.injEq, SinkState.mk.injEq]
            simp only [and_true]
            omega

theorem separator_framing_witness :
    blocksOf "NULL"
        [⟨.ok [⟨"b", "BIT", some false, none, none⟩], [.ok [some (.boolean true)]]⟩,
          ⟨.ok [], []⟩] =
      some [[[], ["[b] BIT NOT NULL"], ["1"]], [[]]] ∧
    runResultSets noFail "NULL"
        [⟨.ok [⟨"b", "BIT", some false, none, none⟩], [.ok [some (.boolean true)]]⟩,
          ⟨.ok [], []⟩] ⟨0, []⟩ =
      (⟨4, [[], ["[b] BIT NOT NULL"], ["1"], []]⟩, none) := by
  refine ⟨rfl, ?_⟩
  exact separator_framing "NULL"
    [⟨.ok [⟨"b", "BIT", some false, none, none⟩], [.ok [some (.boolean true)]]⟩,
      ⟨.ok [], []⟩]
    [[[], ["[b] BIT NOT NULL"], ["1"]], [[]]] ⟨0, []⟩ rfl

theorem writeResultSetLoop_congr (ns : String) (cols : List ColumnType)
    (fail fail' : Nat → Option String) :
    ∀ (rows : List RowOutcome) (c : Nat) (w w' : List (List String))
      (fmt : List String) (rc : Nat),
      (∀ k, c ≤ k → fail k = fail' k) →
      ∃ d c2 err, c ≤ c2 ∧
        writeResultSetLoop fail ns cols rows ⟨c, w⟩ fmt rc = (⟨c2, w ++ d⟩, err) ∧
        writeResultSetLoop fail' ns cols rows ⟨c, w'⟩ fmt rc = (⟨c2, w' ++ d⟩, err) := by
  intro rows
  induction rows with
  | nil =>
    intro c w w' fmt rc h
    exact ⟨[], c, none, Nat.le_refl c,
      by simp [writeResultSetLoop], by simp [writeResultSetLoop]⟩
  | cons r rest ih =>
    intro c w w' fmt rc h
    cases r with
    | scanFail m =>
      exact ⟨[], c, some (.scanRow (rc + 1) m), Nat.le_refl c,
        by simp [writeResultSetLoop], by simp [writeResultSetLoop]⟩
    | ok cells =>
      cases hfr : formatRow ns cols cells fmt with
      | error e =>
        cases e with
        | malformedUuid =>
          exact ⟨[], c, some (.uuidRow (rc + 1)), Nat.le_refl c,
            by simp [writeResultSetLoop, hfr], by simp [writeResultSetLoop, hfr]⟩
        | typeAssertPanic =>
          exact ⟨[], c, some .assertPanic, Nat.le_refl c,
            by simp [writeResultSetLoop, hfr], by simp [writeResultSetLoop, hfr]⟩
      | ok f =>
        have hf : fail c = fail' c := h c (Nat.le_refl c)
        cases hfc : fail c with
        | some m =>
          have hfc' : fail' c = some m := by rw [← hf]; exact hfc
          have hsw : sinkWrite fail ⟨c, w⟩ f = (⟨c + 1, w⟩, some m) := by
            simp [sinkWrite, hfc]
          have hsw' : sinkWrite fail' ⟨c, w'⟩ f = (⟨c + 1, w'⟩, some m) := by
            simp [sinkWrite, hfc']
          exact ⟨[], c + 1, some (.writeRow (rc + 1) m), Nat.le_succ c,
            by simp [writeResultSetLoop, hfr, hsw],
            by simp [writeResultSetLoop, hfr, hsw']⟩
        | none =>
          have hfc' : fail' c = none := by rw [← hf]; exact hfc
          have hsw : sinkWrite fail ⟨c, w⟩ f = (⟨c + 1, w ++ [f]⟩, none) := by
            simp [sinkWrite, hfc]
          have hsw' : sinkWrite fail' ⟨c, w'⟩ f = (⟨c + 1, w' ++ [f]⟩, none) := by
            simp [sinkWrite, hfc']
          have hmono : ∀ k, c + 1 ≤ k → fail k = fail' k := fun k hk =>
            h k (Nat.le_trans (Nat.le_succ c) hk)
          obtain ⟨d, c2, err, hle, h1, h2⟩ :=
            ih (c + 1) (w ++ [f]) (w' ++ [f]) f (rc + 1) hmono
          refine ⟨f :: d, c2, err, Nat.le_trans (Nat.le_succ c) hle, ?_, ?_⟩
          · simp only [writeResultSetLoop, hfr, hsw]
            rw [h1]
            simp [List.append_assoc]
          · simp only [writeResultSetLoop, hfr, hsw']
            rw [h2]
            simp [List.append_assoc]

theorem writeResultSet_congr (ns : String) (cols : List ColumnType)
    (fail fail' : Nat → Option String) (rows : List RowOutcome)
    (c : Nat) (w w' : List (List String))
    (h : ∀ k, c ≤ k → fail k = fail' k) :
    ∃ d c2 err, c ≤ c2 ∧
      writeResultSet fail ns cols rows ⟨c, w⟩ = (⟨c2, w ++ d⟩, err) ∧
      writeResultSet fail' ns cols rows ⟨c, w'⟩ = (⟨c2, w' ++ d⟩, err) := by
  have hf : fail c = fail' c := h c (Nat.le_refl c)
  cases hfc : fail c with
  | some m =>
    have hfc' : fail' c = some m := by rw [← hf]; exact hfc
    have hsw : sinkWrite fail ⟨c, w⟩ (writeHeader cols) = (⟨c + 1, w⟩, some m) := by
      simp [sinkWrite, hfc]
    have hsw' : sinkWrite fail' ⟨c, w'⟩ (writeHeader cols) = (⟨c + 1, w'⟩, some m) := by
      simp [sinkWrite, hfc']
    exact ⟨[], c + 1, some (.headerWrite m), Nat.le_succ c,
      by simp [writeResultSet, hsw], by simp [writeResultSet, hsw']⟩
  | none =>
    have hfc' : fail' c = none := by rw [← hf]; exact hfc
    have hsw : sinkWrite fail ⟨c, w⟩ (writeHeader cols) =
        (⟨c + 1, w ++ [writeHeader cols]⟩, none) := by
      simp [sinkWrite, hfc]
    have hsw' : sinkWrite fail' ⟨c, w'⟩ (writeHeader cols) =
        (⟨c + 1, w' ++ [writeHeader cols]⟩, none) := by
      simp [sinkWrite, hfc']
    have hmono : ∀ k, c + 1 ≤ k → fail k = fail' k := fun k hk =>
      h k (Nat.le_trans (Nat.le_succ c) hk)
    obtain ⟨d, c2, err, hle, h1, h2⟩ :=
      writeResultSetLoop_congr ns cols fail fail' rows (c + 1)
        (w ++ [writeHeader cols]) (w' ++ [writeHeader cols])
        (List.replicate cols.length "") 0 hmono
    refine ⟨writeHeader cols :: d, c2, err, Nat.le_trans (Nat.le_succ c) hle, ?_, ?_⟩
    · simp only [writeResultSet, hsw]
      rw [h1]
      simp [List.append_assoc]
    · simp only [writeResultSet, hsw']
      rw [h2]
      simp [List.append_assoc]

theorem runResultSets_congr (ns : String) (fail fail' : Nat → Option String) :
    ∀ (sets : List ResultSet) (c : Nat) (w w' : List (List String)),
      (∀ k, c ≤ k → fail k = fail' k) →
      ∃ d c2 err, c ≤ c2 ∧
        runResultSets fail ns sets ⟨c, w⟩ = (⟨c2, w ++ d⟩, err) ∧
        runResultSets fail' ns sets ⟨c, w'⟩ = (⟨c2, w' ++ d⟩, err) := by
  intro sets
  induction sets with
  | nil =>
    intro c w w' h
    exact ⟨[], c, none, Nat.le_refl c, by simp [runResultSets], by simp [runResultSets]⟩
  | cons rs rest ih =>
    intro c w w' h
    have hf : fail c = fail' c := h c (Nat.le_refl c)
    have hmono : ∀ k, c + 1 ≤ k → fail k = fail' k := fun k hk =>
      h k (Nat.le_trans (Nat.le_succ c) hk)
    cases hfc : fail c with
    | some m =>
      have hfc' : fail' c = some m := by rw [← hf]; exact hfc
      cases hcolt : rs.colTypes with
      | error m' =>
        exact ⟨[], c + 1, some (.columnTypes m'), Nat.le_succ c,
          by simp [runResultSets, sinkWrite, hfc, hcolt],
          by simp [runResultSets, sinkWrite, hfc', hcolt]⟩
      | ok cols =>
        by_cases h0 : cols.length > 0
        · obtain ⟨d1, c2, err1, hle1, hw1, hw2⟩ :=
            writeResultSet_congr ns cols fail fail' rs.rows (c + 1) w w' hmono
          cases err1 with
          | some e1 =>
            refine ⟨d1, c2, some e1, by omega, ?_, ?_⟩
            · simp [runResultSets, sinkWrite, hfc, hcolt, if_pos h0, hw1]
            · simp [runResultSets, sinkWrite, hfc', hcolt, if_pos h0, hw2]
          | none =>
            have hmono2 : ∀ k, c2 ≤ k → fail k = fail' k := fun k hk =>
              h k (by omega)
            obtain ⟨d2, c3, err2, hle2, hr1, hr2⟩ :=
              ih c2 (w ++ d1) (w' ++ d1) hmono2
            refine ⟨d1 ++ d2, c3, err2, by omega, ?_, ?_⟩
            · simp only [runResultSets, sinkWrite, hfc, hcolt, if_pos h0, hw1]
              rw [hr1]
              simp [List.append_assoc]
            · simp only [runResultSets, sinkWrite, hfc', hcolt, if_pos h0, hw2]
              rw [hr2]
              simp [List.append_assoc]
        · obtain ⟨d2, c2, err, hle, hr1, hr2⟩ := ih (c + 1) w w' hmono
          refine ⟨d2, c2, err, by omega, ?_, ?_⟩
          · simp only [runResultSets, sinkWrite, hfc, hcolt, if_neg h0]
            exact hr1
          · simp only [runResultSets, sinkWrite, hfc', hcolt, if_neg h0]
            exact hr2
    | none =>
      have hfc' : fail' c = none := by rw [← hf]; exact hfc
      cases hcolt : rs.colTypes with
      | error m' =>
        exact ⟨[[]], c + 1, some (.columnTypes m'), Nat.le_succ c,
          by simp [runResultSets, sinkWrite, hfc, hcolt],
          by simp [runResultSets, sinkWrite, hfc', hcolt]⟩
      | ok cols =>
        by_cases h0 : cols.length > 0
        · obtain ⟨d1, c2, err1, hle1, hw1, hw2⟩ :=
            writeResultSet_congr ns cols fail fail' rs.rows (c + 1)
              (w ++ [[]]) (w' ++ [[]]) hmono
          cases err1 with
          | some e1 =>
            refine ⟨[] :: d1, c2, some e1, by omega, ?_, ?_⟩
            · simp only [runResultSets, sinkWrite, hfc, hcolt, if_pos h0, hw1]
              simp [List.append_assoc]
            · simp only [runResultSets, sinkWrite, hfc', hcolt, if_pos h0, hw2]
              simp [List.append_assoc]
          | none =>
            have hmono2 : ∀ k, c2 ≤ k → fail k = fail' k := fun k hk =>
              h k (by omega)
            obtain ⟨d2, c3, err2, hle2, hr1, hr2⟩ :=
              ih c2 ((w ++ [[]]) ++ d1) ((w' ++ [[]]) ++ d1) hmono2
            refine ⟨[] :: (d1 ++ d2), c3, err2, by omega, ?_, ?_⟩
            · simp only [runResultSets, sinkWrite, hfc, hcolt, if_pos h0, hw1]
              rw [hr1]
              simp [List.append_assoc]
            · simp only [runResultSets, sinkWrite, hfc', hcolt, if_pos h0, hw2]
              rw [hr2]
              simp [List.append_assoc]
        · obtain ⟨d2, c2, err, hle, hr1, hr2⟩ :=
            ih (c + 1) (w ++ [[]]) (w' ++ [[]]) hmono
          refine ⟨[] :: d2, c2, err, by omega, ?_, ?_⟩
          · simp only [runResultSets, sinkWrite, hfc, hcolt, if_neg h0]
            rw [hr1]
            simp [List.append_assoc]
          · simp only [runResultSets, sinkWrite, hfc', hcolt, if_neg h0]
            rw [hr2]
            simp [List.append_assoc]

/-- C10: the error of the sink write for the empty separator record is
discarded (`q.cw.Write(nil)` drops the return value): making that write fail
changes nothing but the separator record itself — the executor returns the
same error outcome (never the sink failure) and goes on to write exactly the
same subsequent records as when the write succeeds.  Stated at an arbitrary
entry state, so it covers the separator of every result set. -/
theorem separator_write_error_discarded (ns : String) (fail : Nat → Option String)
    (e : String) (rs : ResultSet) (rest : List ResultSet) (st : SinkState) :
    ∃ d c2 err,
      runResultSets (fun k => if k = st.count then none else fail k) ns
          (rs :: rest) st = (⟨c2, st.written ++ [] :: d⟩, err) ∧
      runResultSets (fun k => if k = st.count then some e else fail k) ns
          (rs :: rest) st = (⟨c2, st.written ++ d⟩, err) := by
  obtain ⟨c, w⟩ := st
  show ∃ d c2 err,
    runResultSets (fun k => if k = c then none else fail k) ns (rs :: rest) ⟨c, w⟩ =
      (⟨c2, w ++ [] :: d⟩, err) ∧
    runResultSets (fun k => if k = c then some e else fail k) ns (rs :: rest) ⟨c, w⟩ =
      (⟨c2, w ++ d⟩, err)
  have hagree : ∀ k, c + 1 ≤ k →
      (fun k => if k = c then some e else fail k) k =
        (fun k => if k = c then none else fail k) k := by
    intro k hk
    have hne : k ≠ c := by omega
    simp [hne]
  have hsep0 : sinkWrite (fun k => if k = c then none else fail k) ⟨c, w⟩ [] =
      (⟨c + 1, w ++ [[]]⟩, none) := by simp [sinkWrite]
  have hsep1 : sinkWrite (fun k => if k = c then some e else fail k) ⟨c, w⟩ [] =
      (⟨c + 1, w⟩, some e) := by simp [sinkWrite]
  cases hcolt : rs.colTypes with
  | error m =>
    exact ⟨[], c + 1, some (.columnTypes m),
      by simp [runResultSets, hsep0, hcolt],
      by simp [runResultSets, hsep1, hcolt]⟩
  | ok cols =>
    by_cases h0 : cols.length > 0
    · obtain ⟨d1, c2, err1, hle1, hw1, hw0⟩ :=
        writeResultSet_congr ns cols
          (fun k => if k = c then some e else fail k)
          (fun k => if k = c then none else fail k)
          rs.rows (c + 1) w (w ++ [[]]) hagree
      cases err1 with
      | some e1 =>
        refine ⟨d1, c2, some e1, ?_, ?_⟩
        · simp only [runResultSets, hsep0, hcolt, if_pos h0, hw0]
          simp [List.append_assoc]
        · simp only [runResultSets, hsep1, hcolt, if_pos h0, hw1]
      | none =>
        have hmono2 : ∀ k, c2 ≤ k →
            (fun k => if k = c then some e else fail k) k =
              (fun k => if k = c then none else fail k) k := fun k hk =>
          hagree k (by omega)
        obtain ⟨d2, c3, err2, hle2, hr1, hr0⟩ :=
          runResultSets_congr ns
            (fun k => if k = c then some e else fail k)
            (fun k => if k = c then none else fail k)
            rest c2 (w ++ d1) ((w ++ [[]]) ++ d1) hmono2
        refine ⟨d1 ++ d2, c3, err2, ?_, ?_⟩
        · simp only [runResultSets, hsep0, hcolt, if_pos h0, hw0]
          rw [hr0]
          simp [List.append_assoc]
        · simp only [runResultSets, hsep1, hcolt, if_pos h0, hw1]
          rw [hr1]
          simp [List.append_assoc]
    · obtain ⟨d2, c2, err, hle, hr1, hr0⟩ :=
        runResultSets_congr ns
          (fun k => if k = c then some e else fail k)
          (fun k => if k = c then none else fail k)
          rest (c + 1) w (w ++ [[]]) hagree
      refine ⟨d2, c2, err, ?_, ?_⟩
      · simp only [runResultSets, hsep0, hcolt, if_neg h0]
        rw [hr0]
        simp [List.append_assoc]
      · simp only [runResultSets, hsep1, hcolt, if_neg h0]
        exact hr1

/-- The row loop `for q.rowCount = 0; rows.Next(); q.rowCount++` of the older
variant's `execQuery` (src/unnamed/part_000 lines 165-225): same scanning,
formatting and writing as `writeResultSet`, but the running row count is the
`queryCSV.rowCount` field, which the function exposes to its caller.  The
returned `Nat` is that field's final value.  (The variant's extra
`cw.Error()` check after each write re-reads the error already returned by
the write itself, so it reports nothing new under this sink model.) -/
def execQueryOldLoop (fail : Nat → Option String) (nullString : String)
    (colTypes : List ColumnType) :
    List RowOutcome → SinkState → List String → Nat → SinkState × Nat × Option RunErr
  | [], st, _, rowCount => (st, rowCount, none)
  | .scanFail m :: _, st, _, rowCount => (st, rowCount, some (.scanRow (rowCount + 1) m))
  | .ok cells :: rest, st, formatted, rowCount =>
    match formatRow nullString colTypes cells formatted with
    | .error .malformedUuid => (st, rowCount, some (.uuidRow (rowCount + 1)))
    | .error .typeAssertPanic => (st, rowCount, some .assertPanic)
    | .ok f =>
      match sinkWrite fail st f with
      | (st2, some m) => (st2, rowCount, some (.writeRow (rowCount + 1) m))
      | (st2, none) => execQueryOldLoop fail nullString colTypes rest st2 f (rowCount + 1)

/-- The older variant's `execQuery` (src/unnamed/part_000 lines 131-225):
single result set — column types, unconditional header write, the row loop
above, then the `rows.Close()` and `rows.Err()` checks.  `rowCount0` is the
value the `rowCount` field holds on entry (it is a struct field, so it
persists across calls); the second component of the result is the field's
value when the function returns. -/
def execQueryOld (fail : Nat → Option String) (nullString : String)
    (colTypes : Except String (List ColumnType)) (rows : List RowOutcome)
    (closeErr errErr : Option String) (rowCount0 : Nat) (st : SinkState) :
    SinkState × Nat × Option RunErr :=
  match colTypes with
  | .error m => (st, rowCount0, some (.columnTypes m))
  | .ok cols =>
    match sinkWrite fail st (writeHeader cols) with
    | (st1, some m) => (st1, rowCount0, some (.headerWrite m))
    | (st1, none) =>
      match execQueryOldLoop fail nullString cols rows st1
        (List.replicate cols.length "") 0 with
      | (st2, rc, some e) => (st2, rc, some e)
      | (st2, rc, none) =>
        match closeErr with
        | some m => (st2, rc, some (.closeRows m))
        | none =>
          match errErr with
          | some m => (st2, rc, some (.rowsErr m))
          | none => (st2, rc, none)

theorem execQueryOldLoop_noFail (ns : String) (cols : List ColumnType) :
    ∀ (rows : List RowOutcome) (fmt : List String) (outs : List (List String))
      (c : Nat) (w : List (List String)) (rc : Nat),
      formatSucc ns cols fmt rows = some outs →
      execQueryOldLoop noFail ns cols rows ⟨c, w⟩ fmt rc =
        (⟨c + outs.length, w ++ outs⟩, rc + outs.length, none) := by
  intro rows
  induction rows with
  | nil =>
    intro fmt outs c w rc h
    simp only [formatSucc, Option.some.injEq] at h
    subst h
    simp [execQueryOldLoop]
  | cons r rest ih =>
    intro fmt outs c w rc h
    cases r with
    | scanFail m => simp [formatSucc] at h
    | ok cells =>
      cases hfr : formatRow ns cols cells fmt with
      | error e => simp [formatSucc, hfr] at h
      | ok f =>
        simp only [formatSucc, hfr] at h
        cases hfs : formatSucc ns cols f rest with
        | none => simp [hfs] at h
        | some outs' =>
          simp only [hfs, Option.some.injEq] at h
          subst h
          have hsw : sinkWrite noFail ⟨c, w⟩ f = (⟨c + 1, w ++ [f]⟩, none) := rfl
          simp only [execQueryOldLoop, hfr, hsw]
          rw [ih f outs' (c + 1) (w ++ [f]) (rc + 1) hfs]
          have hc : c + 1 + outs'.length = c + (outs'.length + 1) := by omega
          have hrc : rc + 1 + outs'.length = rc + (outs'.length + 1) := by omega
          rw [hc, hrc]
          simp [List.append_assoc]

/-- C4: in the variant that exposes the row count (src/unnamed/part_000),
the streamer counts the rows it emits, and on success its caller receives
that count — the number of data records written after the header — through
the `rowCount` field. -/
theorem row_count_returned (ns : String) (cols : List ColumnType)
    (rows : List RowOutcome) (outs : List (List String)) (rowCount0 : Nat)
    (st : SinkState)
    (h : formatSucc ns cols (List.replicate cols.length "") rows = some outs) :
    execQueryOld noFail ns (.ok cols) rows none none rowCount0 st =
      (⟨st.count + 1 + outs.length, st.written ++ writeHeader cols :: outs⟩,
        outs.length, none) := by
  obtain ⟨c, w⟩ := st
  have hsw : sinkWrite noFail ⟨c, w⟩ (writeHeader cols) =
      (⟨c + 1, w ++ [writeHeader cols]⟩, none) := rfl
  simp only [execQueryOld, hsw]
  rw [execQueryOldLoop_noFail ns cols rows _ outs (c + 1) (w ++ [writeHeader cols]) 0 h]
  simp [List.append_assoc]

theorem row_count_returned_witness :
    formatSucc "NULL" [⟨"x", "INT", some false, none, none⟩]
        (List.replicate ([⟨"x", "INT", some false, none, none⟩] : List ColumnType).length "")
        [.ok [some (.int 1)], .ok [some (.int 2)]] = some [["1"], ["2"]] ∧
    execQueryOld noFail "NULL" (.ok [⟨"x", "INT", some false, none, none⟩])
        [.ok [some (.int 1)], .ok [some (.int 2)]] none none 7 ⟨0, []⟩ =
      (⟨3, [["[x] INT NOT NULL"], ["1"], ["2"]]⟩, 2, none) := by
  refine ⟨rfl, ?_⟩
  exact row_count_returned "NULL" [⟨"x", "INT", some false, none, none⟩]
    [.ok [some (.int 1)], .ok [some (.int 2)]] [["1"], ["2"]] 7 ⟨0, []⟩ rfl

/-- Models Go `unicode.IsSpace`: the Unicode White_Space code points. -/
def isGoSpace (c : Char) : Bool :=
  let n := c.toNat
  n == 0x09 || n == 0x0a || n == 0x0b || n == 0x0c || n == 0x0d ||
    n == 0x20 || n == 0x85 || n == 0xa0 || n == 0x1680 ||
    decide (0x2000 ≤ n ∧ n ≤ 0x200a) ||
    n == 0x2028 || n == 0x2029 || n == 0x202f || n == 0x205f || n == 0x3000

/-- Models Go `strings.TrimSpace`: strip leading and trailing white space. -/
def goTrimSpace (s : String) : String :=
  String.mk (((s.data.dropWhile isGoSpace).reverse.dropWhile isGoSpace).reverse)

/-- Models Go `strings.ToUpper` on the code points the `"GO"` comparison can
meet (exact on ASCII, where the sentinel's letters live). -/
def goToUpper (s : String) : String :=
  String.map Char.toUpper s

/-- The batch-terminator test of the input loop:
`strings.ToUpper(strings.TrimSpace(line)) == "GO"`. -/
def isGoLine (line : String) : Bool :=
  goToUpper (goTrimSpace line) == "GO"

/-- The stdin loop of `main` (`main.go` lines 74-112), restricted to its
batch bookkeeping: on a `GO` line submit the accumulated buffer and reset it,
otherwise append the line plus CRLF to the buffer; end of input drops
whatever is pending.  Returns the submitted batch texts in order. -/
def readBatches : List String → String → List String
  | [], _ => []
  | line :: rest, text =>
    if isGoLine line then text :: readBatches rest ""
    else readBatches rest (text ++ line ++ "\r\n")

/-- The batches `main` submits for a complete input line sequence. -/
def mainBatches (lines : List String) : List String :=
  readBatches lines ""

/-- CRLF-join of a chunk of lines, each line terminated by CRLF, as the spec
describes the reassembled batch text. -/
def crlfJoin : List String → String
  | [] => ""
  | l :: rest => l ++ "\r\n" ++ crlfJoin rest

/-- The spec-side description of batching: split the line sequence on the
`GO` sentinel lines, drop the trailing chunk (the pending buffer that never
sees a `GO`), and CRLF-join each remaining chunk. -/
def specBatches (lines : List String) : List String :=
  ((lines.splitOnP isGoLine).dropLast).map crlfJoin

theorem modifyHead_empty_append (l : List String) :
    l.modifyHead (fun s => "" ++ s) = l := by
  cases l <;> simp

theorem readBatches_eq (lines : List String) : ∀ text : String,
    readBatches lines text =
      (((lines.splitOnP isGoLine).dropLast).map crlfJoin).modifyHead
        (fun s => text ++ s) := by
  induction lines with
  | nil => intro text; simp [readBatches, List.splitOnP_nil]
  | cons l rest ih =>
    intro text
    obtain ⟨s, S', hS⟩ := List.exists_cons_of_ne_nil
      (List.splitOnP_ne_nil isGoLine rest)
    by_cases hgo : isGoLine l
    · rw [show readBatches (l :: rest) text = text :: readBatches rest "" by
        simp [readBatches, hgo]]
      rw [ih "", List.splitOnP_cons, if_pos hgo, hS]
      simp only [List.dropLast_cons₂, List.map_cons, List.modifyHead_cons,
        modifyHead_empty_append, crlfJoin, String.append_empty]
    · rw [show readBatches (l :: rest) text =
          readBatches rest (text ++ l ++ "\r\n") by simp [readBatches, hgo]]
      rw [ih (text ++ l ++ "\r\n"), List.splitOnP_cons, if_neg hgo, hS]
      simp only [List.modifyHead_cons]
      cases S' with
      | nil => simp
      | cons s2 S'' =>
        simp only [List.dropLast_cons₂, List.map_cons, List.modifyHead_cons,
          crlfJoin]
        simp [String.append_assoc]

/-- C8: the input loop accumulates lines with CRLF terminators into a pending
buffer, submits the buffer as one batch exactly when a line whose trimmed,
upper-cased content is `GO` is read (clearing the buffer), and discards a
trailing pending buffer that end-of-input leaves without a closing `GO`:
the submitted batches are precisely the CRLF-joined chunks strictly between
the `GO` sentinel lines, the trailing chunk dropped. -/
theorem batch_splitting (lines : List String) :
    mainBatches lines = specBatches lines := by
  rw [mainBatches, readBatches_eq lines "", specBatches]
  exact modifyHead_empty_append _

/-- Modelled from the spec: the driver delivers `UNIQUEIDENTIFIER` cells as
"a fixed-length byte sequence representing a GUID in mixed-endian on-wire
layout" — the first three groups (4, 2 and 2 bytes) little-endian, the final
eight bytes in order.  Given a GUID as its 16 bytes in canonical textual
order, this produces those on-wire bytes.  (The encoder is the driver's
side and is not part of src/.) -/
def encodeMixedEndianWire (g : List Nat) : List Nat :=
  (g.take 4).reverse ++ ((g.drop 4).take 2).reverse ++
    ((g.drop 6).take 2).reverse ++ g.drop 8

/-- C2: the program formats a `UNIQUEIDENTIFIER` cell with
`uuid.FromBytes(...).String()`, which preserves byte order, so formatting the
mixed-endian on-wire bytes of a GUID yields the hyphenated string of the
byte-swapped GUID, not the original canonical string: the round trip the spec
requires fails.  Only the invalid-length half of the claim holds (a byte
sequence that is not 16 bytes long fails with the decode error). -/
theorem uuid_mixed_endian_not_round_tripped :
    uuidString
        [0x00, 0x11, 0x22, 0x33, 0x44, 0x55, 0x66, 0x77,
          0x88, 0x99, 0xaa, 0xbb, 0xcc, 0xdd, 0xee, 0xff] =
      "00112233-4455-6677-8899-aabbccddeeff" ∧
    encodeMixedEndianWire
        [0x00, 0x11, 0x22, 0x33, 0x44, 0x55, 0x66, 0x77,
          0x88, 0x99, 0xaa, 0xbb, 0xcc, 0xdd, 0xee, 0xff] =
      [0x33, 0x22, 0x11, 0x00, 0x55, 0x44, 0x77, 0x66,
        0x88, 0x99, 0xaa, 0xbb, 0xcc, 0xdd, 0xee, 0xff] ∧
    formatCell "UNIQUEIDENTIFIER" "" "NULL"
        (some (.bytes (encodeMixedEndianWire
          [0x00, 0x11, 0x22, 0x33, 0x44, 0x55, 0x66, 0x77,
            0x88, 0x99, 0xaa, 0xbb, 0xcc, 0xdd, 0xee, 0xff]))) =
      .ok "33221100-5544-7766-8899-aabbccddeeff" ∧
    ("33221100-5544-7766-8899-aabbccddeeff" : String) ≠
      "00112233-4455-6677-8899-aabbccddeeff" ∧
    formatCell "UNIQUEIDENTIFIER" "" "NULL" (some (.bytes [0x00, 0x11, 0x22])) =
      .error .malformedUuid := by
  refine ⟨rfl, rfl, rfl, by decide, rfl⟩
